import Mathlib

/-!
Verification of the Hephestus tool synthesis, validation and invocation
pipeline (`src/hephestus/intent_outcomes/...`), shallowly embedded in Lean.

Strings from the Python side are modelled as `List Char`; Python's
`str.lower()` / `str.strip()` / substring test `in` are modelled by
`pyLower` / `pyStrip` / `containsSub`.  Python's `re.search` over the
handful of fixed patterns used by the repository is modelled by a small
backtracking matcher (`rmatchAll` / `searchList`) with Python's priority
order: leftmost start position, alternatives left to right, greedy
quantifiers longest first and lazy quantifiers shortest first.

External effects (the OpenRouter LLM gateway, the Python interpreter
executing a dynamically loaded module, the filesystem) are passed in as
oracle functions, so that the deterministic control flow of the source is
the object of verification.
-/

/-- Python `str.lower()` on one character, ASCII model: the source applies
`.lower()` to user messages and parameter names before regex matching. -/
def pyLowerChar (c : Char) : Char :=
  if c.isUpper then Char.ofNat (c.toNat + 32) else c

/-- Python `str.lower()` over a whole string. -/
def pyLower (l : List Char) : List Char := l.map pyLowerChar

/-- Python whitespace class `\s` (ASCII part), also used by `str.strip()`. -/
def pyWs (c : Char) : Bool :=
  c = ' ' || c = '\t' || c = '\n' || c = '\r' || c = '\x0b' || c = '\x0c'

/-- Python `str.strip()`: drop whitespace from both ends. -/
def pyStrip (l : List Char) : List Char :=
  ((l.dropWhile pyWs).reverse.dropWhile pyWs).reverse

/-- Decidable "the first list is a prefix of the second". -/
def listPr : List Char → List Char → Bool
  | [], _ => true
  | _ :: _, [] => false
  | a :: as, b :: bs => a = b && listPr as bs

/-- Python's substring test `needle in hay` on strings. -/
def containsSub (needle : List Char) : List Char → Bool
  | [] => listPr needle []
  | c :: rest => listPr needle (c :: rest) || containsSub needle rest

/-- Regex abstract syntax covering exactly the constructs used by the
patterns in `run_tool.py` and the code-fence pattern in `debug_code.py` /
`generate_code.py`: literals, character classes, sequencing, alternation,
greedy and lazy star over a class, greedy option, and capture groups. -/
inductive Rx where
  | eps : Rx
  | cls : (Char → Bool) → Rx
  | lit : List Char → Rx
  | seq : Rx → Rx → Rx
  | alt : Rx → Rx → Rx
  | starG : (Char → Bool) → Rx
  | starL : (Char → Bool) → Rx
  | opt : Rx → Rx
  | grp : Nat → Rx → Rx

/-- Consume a literal character sequence from the front of the input. -/
def dropLit : List Char → List Char → Option (List Char)
  | [], s => some s
  | _ :: _, [] => none
  | a :: as, b :: bs => if a = b then dropLit as bs else none

/-- Length of the maximal run of class characters at the front of the input. -/
def takeRun (p : Char → Bool) : List Char → Nat
  | [] => 0
  | c :: rest => if p c then takeRun p rest + 1 else 0

/-- All ways a regex can match a prefix of the input, in Python backtracking
priority order.  Each result is the remaining input paired with the capture
list accumulated so far (group index, captured text). -/
def rmatchAll : Rx → List Char → List (Nat × List Char) →
    List (List Char × List (Nat × List Char))
  | .eps, s, caps => [(s, caps)]
  | .cls p, s, caps =>
    match s with
    | [] => []
    | c :: rest => if p c then [(rest, caps)] else []
  | .lit l, s, caps =>
    match dropLit l s with
    | some rest => [(rest, caps)]
    | none => []
  | .seq a b, s, caps =>
    (rmatchAll a s caps).flatMap (fun pr => rmatchAll b pr.1 pr.2)
  | .alt a b, s, caps => rmatchAll a s caps ++ rmatchAll b s caps
  | .starG p, s, caps =>
    ((List.range (takeRun p s + 1)).reverse).map (fun k => (s.drop k, caps))
  | .starL p, s, caps =>
    (List.range (takeRun p s + 1)).map (fun k => (s.drop k, caps))
  | .opt a, s, caps => rmatchAll a s caps ++ [(s, caps)]
  | .grp n a, s, caps =>
    (rmatchAll a s caps).map
      (fun pr => (pr.1, pr.2 ++ [(n, s.take (s.length - pr.1.length))]))

/-- Python `re.search`: try each start position left to right, and at the
first position where the pattern matches return the captures of the
highest-priority match. -/
def searchList (r : Rx) : List Char → Option (List (Nat × List Char))
  | [] =>
    match rmatchAll r [] [] with
    | pr :: _ => some pr.2
    | [] => none
  | c :: rest =>
    match rmatchAll r (c :: rest) [] with
    | pr :: _ => some pr.2
    | [] => searchList r rest

/-- Greedy `+` over a character class, as `p` followed by `p*`. -/
def plusG (p : Char → Bool) : Rx := .seq (.cls p) (.starG p)

/-- Sequence a list of regexes. -/
def seqs (l : List Rx) : Rx := l.foldr .seq .eps

/-- Alternation over a list, leftmost first; the empty list never matches. -/
def alts (l : List Rx) : Rx := l.foldr .alt (.cls (fun _ => false))

/-- Literal regex from a string. -/
def litS (s : String) : Rx := .lit s.data

/-- Character class `\w` (ASCII model of Python's word character). -/
def wordChar (c : Char) : Bool := c.isAlphanum || c = '_'

/-- Character class `[:=]`. -/
def colonEq (c : Char) : Bool := c = ':' || c = '='

/-- Character class `[^x]` for a single excluded character. -/
def notCh (d : Char) (c : Char) : Bool := !(c = d)

/-- Character class `[^,.]`. -/
def notCommaDot (c : Char) : Bool := !(c = ',') && !(c = '.')

/-- Character class `.` under `re.DOTALL`. -/
def anyCh (_ : Char) : Bool := true

/-- Pattern `{param}\s*[:=]\s*"([^"]+)"` from `extract_args_from_message`. -/
def pat1 (pl : List Char) : Rx :=
  seqs [.lit pl, .starG pyWs, .cls colonEq, .starG pyWs, litS "\"",
    .grp 1 (plusG (notCh '"')), litS "\""]

/-- Pattern `{param}\s*[:=]\s*'([^']+)'` from `extract_args_from_message`. -/
def pat2 (pl : List Char) : Rx :=
  seqs [.lit pl, .starG pyWs, .cls colonEq, .starG pyWs, .lit ['\''],
    .grp 1 (plusG (notCh '\'')), .lit ['\'']]

/-- Pattern `{param}\s*[:=]\s*(\w+)` from `extract_args_from_message`. -/
def pat3 (pl : List Char) : Rx :=
  seqs [.lit pl, .starG pyWs, .cls colonEq, .starG pyWs, .grp 1 (plusG wordChar)]

/-- Pattern `{param}\s+(is|as|of|for|to)\s+([^,.]+)`; this is the one pattern
with two capture groups, so the caller extracts group 2. -/
def pat4 (pl : List Char) : Rx :=
  seqs [.lit pl, plusG pyWs,
    .grp 1 (alts [litS "is", litS "as", litS "of", litS "for", litS "to"]),
    plusG pyWs, .grp 2 (plusG notCommaDot)]

/-- Pattern `(?:use|with|set)\s+{param}\s+(?:as|to|of)\s+([^,.]+)`. -/
def pat5 (pl : List Char) : Rx :=
  seqs [alts [litS "use", litS "with", litS "set"], plusG pyWs, .lit pl,
    plusG pyWs, alts [litS "as", litS "to", litS "of"], plusG pyWs,
    .grp 1 (plusG notCommaDot)]

/-- Pattern `([^,.]+)\s+(?:for|as)\s+(?:the\s+)?{param}`. -/
def pat6 (pl : List Char) : Rx :=
  seqs [.grp 1 (plusG notCommaDot), plusG pyWs, alts [litS "for", litS "as"],
    plusG pyWs, .opt (.seq (litS "the") (plusG pyWs)), .lit pl]

/-- The ordered pattern list of `extract_args_from_message`, each paired with
the index of the group the code reads (`group(1)`, or `group(2)` for the one
pattern that declares two groups). -/
def patList (pl : List Char) : List (Rx × Nat) :=
  [(pat1 pl, 1), (pat2 pl, 1), (pat3 pl, 1), (pat4 pl, 2), (pat5 pl, 1), (pat6 pl, 1)]

/-- The inner pattern loop of `extract_args_from_message`: try each pattern
against the lowercased message and take the designated capture of the first
pattern that matches. -/
def firstPat : List (Rx × Nat) → List Char → Option (List Char)
  | [], _ => none
  | (r, n) :: rest, msgL =>
    match searchList r msgL with
    | some caps => some ((caps.lookup n).getD [])
    | none => firstPat rest msgL

/-- Per-parameter resolution in `extract_args_from_message`: the parameter
name is lowercased and stripped, the patterns are tried against the
lowercased message, the first captured value is stripped; on no regex match
the LLM fallback (oracle `g`, already accounting for the JSON parse and the
explicit-null case, both of which yield `none`) supplies the value. -/
def resolveParam (msg : List Char) (g : String → Option (List Char))
    (param : String) : Option (List Char) :=
  let pl := pyStrip (pyLower param.data)
  match firstPat (patList pl) (pyLower msg) with
  | some v => some (pyStrip v)
  | none => g param

/-- The body of `extract_args_from_message`: one resolved-or-missing value is
appended per parameter, in parameter order. -/
def extract_args_from_message (msg : List Char) (g : String → Option (List Char)) :
    List String → List (Option (List Char))
  | [] => []
  | p :: ps => resolveParam msg g p :: extract_args_from_message msg g ps

/-- Python `None in args` over the extracted argument list. -/
def hasNone (l : List (Option (List Char))) : Bool := l.any (fun x => x.isNone)

/-- Drop the `Option` wrapper from a list known to contain no `none`. -/
def stripSomes (l : List (Option (List Char))) : List (List Char) := l.filterMap id

/-- One entry of the parsed `functions.md` catalog: a function name and its
declared parameter names, as produced by `parse_functions_md`. -/
structure FuncDef where
  name : String
  parameters : List String
deriving DecidableEq, Repr

/-- The classifier branch of `determine_function_and_args`: look up the
LLM-selected name in the catalog; on a hit, extract arguments, and either
refuse (`(none, [])`, the Python `return None, []`) when a value is missing
or return the selection.  A selected name absent from the catalog falls
through (`none` here) to the keyword fallback. -/
def classifierSelect (functions : List FuncDef) (msg : List Char)
    (g : String → Option (List Char)) (sel : String) :
    Option (Option String × List (List Char)) :=
  match functions.find? (fun f => f.name = sel) with
  | none => none
  | some f =>
    let args := extract_args_from_message msg g f.parameters
    if hasNone args then some (none, [])
    else some (some f.name, stripSomes args)

/-- The keyword-matching fallback loop of `determine_function_and_args`:
first catalog entry whose lowercased name occurs in the lowercased message
and whose arguments all resolve. -/
def fallbackLoop (msg : List Char) (g : String → Option (List Char)) :
    List FuncDef → Option String × List (List Char)
  | [] => (none, [])
  | f :: rest =>
    if containsSub (pyLower f.name.data) (pyLower msg) then
      let args := extract_args_from_message msg g f.parameters
      if hasNone args then fallbackLoop msg g rest
      else (some f.name, stripSomes args)
    else fallbackLoop msg g rest

/-- `determine_function_and_args`.  The classifier oracle is `none` when the
LLM call or JSON parse raised (`KeyError` / `JSONDecodeError`, both caught),
`some none` when it returned a null / falsy `function_name`, and
`some (some sel)` when it selected `sel`. -/
def determine_function_and_args (functions : List FuncDef) (msg : List Char)
    (classifier : Option (Option String)) (g : String → Option (List Char)) :
    Option String × List (List Char) :=
  match classifier with
  | some (some sel) =>
    if sel.isEmpty then fallbackLoop msg g functions
    else
      match classifierSelect functions msg g sel with
      | some r => r
      | none => fallbackLoop msg g functions
  | _ => fallbackLoop msg g functions

/-- String-to-list shorthand for building the literal messages of
`run_tool`. -/
def strL (s : String) : List Char := s.data

/-- The `function_list` rendering in `run_tool`'s no-function branch:
`"- {name}: {", ".join(parameters)}"` joined with newlines. -/
def functionListing (functions : List FuncDef) : List Char :=
  strL (String.intercalate "\n"
    (functions.map (fun f => "- " ++ f.name ++ ": " ++ String.intercalate ", " f.parameters)))

/-- The full message `run_tool` returns when no function was selected. -/
def noFunctionMsg (toolName : String) (functions : List FuncDef) : List Char :=
  strL ("No suitable function found to run. Available functions for " ++ toolName ++ ":\n")
    ++ functionListing functions

/-- The dispatch tail of `run_tool` (lines 80-97): run
`determine_function_and_args`, then either call the selected function with
the gathered arguments passed positionally (`getattr(tool_module, f)(*args)`,
modelled by the oracle `call` applied to the argument list in order, and
recorded in the returned invocation log), or report.  `hasAttr` models
`hasattr(tool_module, function_to_run)`; `call` returns `.error` when the
Python call raised. -/
def run_tool_dispatch (toolName : String) (functions : List FuncDef)
    (hasAttr : String → Bool)
    (call : String → List (List Char) → Except (List Char) (List Char))
    (msg : List Char) (classifier : Option (Option String))
    (g : String → Option (List Char)) :
    List Char × List (String × List (List Char)) :=
  match determine_function_and_args functions msg classifier g with
  | (some fn, args) =>
    if hasAttr fn then
      match call fn args with
      | .ok r => (strL ("Result from " ++ fn ++ ": ") ++ r, [(fn, args)])
      | .error e => (strL ("Error running function " ++ fn ++ ": ") ++ e, [(fn, args)])
    else
      (strL ("Error: Function '" ++ fn ++
        "' is defined in documentation but not implemented in the tool code."), [])
  | (none, _) => (noFunctionMsg toolName functions, [])

/-- The code-fence extraction shared by `strip_code_fences`
(`generate_code.py`) and the inline extraction in `fix_tool_code`
(`debug_code.py`): search for `(?:python)?\s*(.*?)\s*` between two triple
backtick fences under `re.DOTALL`, return the stripped first capture on a
match and the stripped whole text otherwise.  (The fence characters are
spelled via their code point to keep them out of this file's literals.) -/
def fenceChar : Char := Char.ofNat 96

/-- The fence pattern of `strip_code_fences` and `fix_tool_code`. -/
def fenceRx : Rx :=
  seqs [.lit [fenceChar, fenceChar, fenceChar], .opt (litS "python"),
    .starG pyWs, .grp 1 (.starL anyCh), .starG pyWs,
    .lit [fenceChar, fenceChar, fenceChar]]

def strip_code_fences (code : List Char) : List Char :=
  match searchList fenceRx code with
  | some caps => pyStrip ((caps.lookup 1).getD [])
  | none => pyStrip code

/-- The token whose absence makes `fix_tool_code` reject a proposed fix. -/
def defTok : List Char := strL "def "

/-- `fix_tool_code` after the prompt assembly: `resp` is the Gateway's
response content, `none` when `llm_api_call` raised (the surrounding
`except Exception` turns any raise into a `return None`).  The extracted
code is rejected (`none`) when it contains no `"def "` occurrence. -/
def fix_tool_code (resp : Option (List Char)) : Option (List Char) :=
  match resp with
  | none => none
  | some content =>
    let fixed := strip_code_fences content
    if containsSub defTok fixed then some fixed else none

/-- The `while attempts < max_attempts` loop of `debug_code`, with the
remaining budget as fuel and the Python `attempts` counter threaded through.
`analyzeOk` is `analyze_tool_code` succeeding with a nonempty function map
(its failure is the in-loop `return False`); `testPass` is
"all test results report success"; the fix path calls `fix_tool_code` on
the Gateway response `llm code` and on success overwrites the module
(the recursive call's new state) — on `None` it is the in-loop
`return False`.  The result is `(returned boolean, attempts, on-disk module
text at exit)`. -/
def debugLoop (analyzeOk testPass : List Char → Bool)
    (llm : List Char → Option (List Char)) :
    Nat → Nat → List Char → Bool × Nat × List Char
  | 0, attempts, code => (false, attempts, code)
  | fuel + 1, attempts, code =>
    if analyzeOk code then
      if testPass code then (true, attempts + 1, code)
      else
        match fix_tool_code (llm code) with
        | none => (false, attempts + 1, code)
        | some fixed => debugLoop analyzeOk testPass llm fuel (attempts + 1) fixed
    else (false, attempts + 1, code)

/-- `debug_code(tool_name, max_attempts)` for a tool whose `tool.py` exists
with initial text `code`. -/
def debug_code (analyzeOk testPass : List Char → Bool)
    (llm : List Char → Option (List Char)) (max_attempts : Nat)
    (code : List Char) : Bool × Nat × List Char :=
  debugLoop analyzeOk testPass llm max_attempts 0 code

/-- "The tests all pass within `n` iterations": either the current module
passes, or the fix of the current module is accepted and the rest of the
trajectory passes within `n - 1`. -/
def passWithin (testPass : List Char → Bool) (llm : List Char → Option (List Char)) :
    Nat → List Char → Bool
  | 0, _ => false
  | n + 1, code =>
    testPass code ||
      match fix_tool_code (llm code) with
      | none => false
      | some fixed => passWithin testPass llm n fixed

/-- The module text after `n` applied fixes (identity where a fix is
rejected; only used under the hypothesis that every fix is accepted). -/
def fixIter (llm : List Char → Option (List Char)) : Nat → List Char → List Char
  | 0, code => code
  | n + 1, code =>
    match fix_tool_code (llm code) with
    | none => code
    | some fixed => fixIter llm n fixed

/-- One synthesized test case of `test_all_functions`: arguments plus an
optional expected value (`test_case.get("expected")`). -/
structure HarnessCase (A V : Type) where
  args : A
  expected : Option V

/-- The per-case record kept by `test_all_functions`: the case success flag,
whether the call raised, and the recorded `matches_expected` flag (absent
when no expected value was present or the call raised). -/
structure CaseOutcome where
  success : Bool
  raised : Bool
  matches_expected : Option Bool
deriving DecidableEq, Repr

/-- The per-test-case body of `test_all_functions`: run the function
(`ev`, `.error` when the call raised), then, when an expected value is
present, run the Python `result == expected` comparison (`cmp`, `none` when
the comparison itself raised — the code's bare `except` records
`matches_expected = False` and, deliberately, nothing else). -/
def runCase {A V : Type} (ev : A → Except (List Char) V)
    (cmp : V → V → Option Bool) (tc : HarnessCase A V) : CaseOutcome :=
  match ev tc.args with
  | .error _ => { success := false, raised := true, matches_expected := none }
  | .ok v =>
    match tc.expected with
    | none => { success := true, raised := false, matches_expected := none }
    | some e =>
      match cmp v e with
      | some b => { success := b, raised := false, matches_expected := some b }
      | none => { success := true, raised := false, matches_expected := some false }

/-- The per-function loop of `test_all_functions`: `function_results`
starts with `success = True`, each case outcome is appended, and the
function flag is and-ed with each case flag (the code sets it to `False`
exactly on a raise or an unequal comparison). -/
def test_function {A V : Type} (ev : A → Except (List Char) V)
    (cmp : V → V → Option Bool) (cases : List (HarnessCase A V)) :
    Bool × List CaseOutcome :=
  cases.foldl
    (fun acc tc =>
      let o := runCase ev cmp tc
      (acc.1 && o.success, acc.2 ++ [o]))
    (true, [])

/-- Python values appearing in synthesized test cases.  The generator only
ever builds flat lists of small integers and string-to-integer mappings, so
collections are modelled at that element type; floats only occur as stored
literals (`1.0`, `2.5`), never computed on, so a rational carrier is exact. -/
inductive PyVal where
  | vstr : String → PyVal
  | vint : Int → PyVal
  | vfloat : Rat → PyVal
  | vbool : Bool → PyVal
  | vlist : List Int → PyVal
  | vdict : List (String × Int) → PyVal
  | vnone : PyVal
deriving DecidableEq, Repr

/-- Per-parameter record produced by `analyze_tool_code`: the annotation's
type name (`"any"` when undeclared) and the default value, where Python
stores `None` both for "no default" and for an actual `None` default —
exactly the collapse performed by `analyze_tool_code` line 153. -/
structure ParamInfo where
  annot : String
  default : Option PyVal
deriving DecidableEq, Repr

/-- A synthesized test case: positional args (always empty in the
generator), keyword args in insertion order, and the optional expected
value. -/
structure GenCase where
  args : List PyVal
  kwargs : List (String × PyVal)
  expected : Option PyVal
deriving DecidableEq, Repr

/-- Lowercase of an annotation name (`param_info["annotation"].lower()`). -/
def annLower (s : String) : String := String.mk (pyLower s.data)

/-- The basic value chosen for one parameter in `generate_test_cases`:
default if present, otherwise a representative of the declared type. -/
def basicVal (pname : String) (info : ParamInfo) : PyVal :=
  match info.default with
  | some v => v
  | none =>
    let t := annLower info.annot
    if t = "str" then .vstr ("test_" ++ pname)
    else if t = "int" then .vint 1
    else if t = "float" then .vfloat 1
    else if t = "bool" then .vbool true
    else if t = "list" then .vlist []
    else if t = "dict" then .vdict []
    else .vnone

/-- `basic_kwargs`: one entry per parameter in declaration order. -/
def basicKwargs (params : List (String × ParamInfo)) : List (String × PyVal) :=
  params.map (fun p => (p.1, basicVal p.1 p.2))

/-- Python dict assignment `kwargs_copy[param_name] = v` on a dict that
already contains the key: replace in place, order preserved. -/
def setKw (kwargs : List (String × PyVal)) (pname : String) (v : PyVal) :
    List (String × PyVal) :=
  kwargs.map (fun p => if p.1 = pname then (p.1, v) else p)

/-- The edge cases appended for one parameter, by lowercased annotation:
two for strings, three for numerics, two for collections, none otherwise. -/
def edgeCasesFor (basic : List (String × PyVal)) (pname : String)
    (info : ParamInfo) : List GenCase :=
  let t := annLower info.annot
  if t = "str" then
    [⟨[], setKw basic pname (.vstr ""), none⟩,
     ⟨[], setKw basic pname (.vstr (String.mk (List.replicate 100 'a'))), none⟩]
  else if t = "int" || t = "float" then
    [⟨[], setKw basic pname (.vint 0), none⟩,
     ⟨[], setKw basic pname (.vint (-1)), none⟩,
     ⟨[], setKw basic pname (.vint 1000000), none⟩]
  else if t = "list" || t = "dict" then
    [⟨[], setKw basic pname (if t = "list" then .vlist [] else .vdict []), none⟩,
     ⟨[], setKw basic pname
       (if t = "list" then .vlist [1, 2, 3] else .vdict [("a", 1), ("b", 2)]), none⟩]
  else []

/-- The edge-case loop over all parameters. -/
def edgeCases (basic : List (String × PyVal)) :
    List (String × ParamInfo) → List GenCase
  | [] => []
  | p :: rest => edgeCasesFor basic p.1 p.2 ++ edgeCases basic rest

/-- Python `str.startswith` on our list model. -/
def pyStarts (s : String) (pre : String) : Bool := listPr pre.data s.data

/-- The name-pattern known-answer cases appended at the end of
`generate_test_cases`, following the source's `if/elif` prefix chain. -/
def nameCases (funcName : String) : List GenCase :=
  if pyStarts funcName "add" || pyStarts funcName "sum" || pyStarts funcName "calculate" then
    [⟨[], [("a", .vint 5), ("b", .vint 3)], some (.vint 8)⟩,
     ⟨[], [("a", .vint (-1)), ("b", .vint 1)], some (.vint 0)⟩]
  else if pyStarts funcName "subtract" || pyStarts funcName "minus" then
    [⟨[], [("a", .vint 5), ("b", .vint 3)], some (.vint 2)⟩,
     ⟨[], [("a", .vint 3), ("b", .vint 5)], some (.vint (-2))⟩]
  else if pyStarts funcName "multiply" || pyStarts funcName "times" then
    [⟨[], [("a", .vint 5), ("b", .vint 3)], some (.vint 15)⟩,
     ⟨[], [("a", .vint (-2)), ("b", .vint 3)], some (.vint (-6))⟩]
  else if pyStarts funcName "divide" || pyStarts funcName "div" then
    [⟨[], [("a", .vint 6), ("b", .vint 3)], some (.vint 2)⟩,
     ⟨[], [("a", .vint 5), ("b", .vint 2)], some (.vfloat (5 / 2))⟩,
     ⟨[], [("a", .vint 1), ("b", .vint 0)], none⟩]
  else []

/-- `generate_test_cases(func_name, func_info)`: the basic case, then the
per-parameter edge cases in parameter order, then the name-pattern cases. -/
def generate_test_cases (funcName : String)
    (params : List (String × ParamInfo)) : List GenCase :=
  ⟨[], basicKwargs params, none⟩ :: (edgeCases (basicKwargs params) params ++ nameCases funcName)

/-- Transport failures of `llm_api_call`: a `requests` error is re-raised as
an `HTTPException` carrying the underlying message (llm_api.py line 80). -/
abbrev TErr := List Char

/-- The `extract_content` fallback in `generate_docs.py`: an empty document
is replaced by the literal placeholder. -/
def orPlaceholder (c : List Char) : List Char :=
  if c.isEmpty then strL "No content generated" else c

/-- `create_tool_definitions(tool_name, details)`: three sequential Gateway
calls (documentation, functions, summary), none of them guarded — a raise in
any call propagates to the caller.  `extract_content` and the empty-payload
substitution never raise; the produced document texts are returned in place
of the file writes. -/
def create_tool_definitions (g1 g2 g3 : Except TErr (List Char)) :
    Except TErr (List Char × List Char × List Char) := do
  let d ← g1
  let dc := orPlaceholder d
  let f ← g2
  let fc := orPlaceholder f
  let s ← g3
  let sc := orPlaceholder s
  pure (dc, fc, sc)

/-- `generate_code(tool_name)`: after the docs-exist checks (early `return`
when missing, modelled by `docsExist`), one unguarded Gateway call whose
raise propagates; on success the fenced code is stripped and written
(returned here). -/
def generate_code (docsExist : Bool) (g : Except TErr (List Char)) :
    Except TErr (Option (List Char)) :=
  if docsExist then do
    let c ← g
    pure (some (strip_code_fences c))
  else pure none

/-- `tool_pipeline(tool_name, details)`: documentation generation, code
generation and debugging in sequence — the first two unguarded, so their
transport errors propagate — followed by the library step, whose whole body
sits in a `try/except` (`lib = none` models both "library unavailable" and
"library step raised"); the debug result is computed and discarded.  The
returned string is the user-visible outcome message. -/
def tool_pipeline (toolName : String) (g1 g2 g3 gcode : Except TErr (List Char))
    (debugResult : Bool) (lib : Option (Bool × List Char)) :
    Except TErr (List Char) := do
  let _docs ← create_tool_definitions g1 g2 g3
  let _code ← generate_code true gcode
  let _dbg := debugResult
  match lib with
  | some (true, _msg) =>
    pure (strL ("Tool '" ++ toolName ++
      "' created and uploaded to the library. You can now use it with: 'Use the " ++
      toolName ++ " tool to...'"))
  | some (false, msg) =>
    pure (strL ("Tool '" ++ toolName ++
      "' created successfully, but upload to library failed: ") ++ msg ++
      strL (". You can still use it with: 'Use the " ++ toolName ++ " tool to...'"))
  | none =>
    pure (strL ("Tool '" ++ toolName ++
      "' created successfully. You can now use it with: 'Use the " ++ toolName ++
      " tool to...'"))

/-! ### Helper lemmas -/

theorem listPr_head {a : Char} {as l : List Char} (h : listPr (a :: as) l = true) :
    l.head? = some a := by
  cases l with
  | nil => simp [listPr] at h
  | cons b bs =>
    simp [listPr] at h
    rw [h.1]
    rfl

theorem pyStarts_false_of_head {fn : String} {c : Char} (hd : fn.data.head? = some c)
    (a : Char) (as : List Char) (hne : a ≠ c) : listPr (a :: as) fn.data = false := by
  cases hb : listPr (a :: as) fn.data with
  | false => rfl
  | true =>
    have := listPr_head hb
    rw [hd] at this
    exact absurd (Option.some.inj this).symm hne

theorem mem_generate_of_mem_nameCases (funcName : String)
    (params : List (String × ParamInfo)) {c : GenCase}
    (h : c ∈ nameCases funcName) : c ∈ generate_test_cases funcName params :=
  List.mem_cons_of_mem _ (List.mem_append_right _ h)

/-- C5: for every function whose name begins with "add", "sum" or
"calculate", the synthesized case list contains the known-answer cases
`a=5,b=3 → 8` and `a=-1,b=1 → 0`, regardless of the declared parameters;
for every function whose name begins with "divide" or "div", it contains
`a=6,b=3 → 2`, `a=5,b=2 → 2.5` and the expectation-free case `a=1,b=0`. -/
theorem generate_test_cases_known_answers (funcName : String)
    (params : List (String × ParamInfo)) :
    ((pyStarts funcName "add" || pyStarts funcName "sum" ||
        pyStarts funcName "calculate") = true →
      (⟨[], [("a", .vint 5), ("b", .vint 3)], some (.vint 8)⟩ : GenCase) ∈
        generate_test_cases funcName params ∧
      (⟨[], [("a", .vint (-1)), ("b", .vint 1)], some (.vint 0)⟩ : GenCase) ∈
        generate_test_cases funcName params) ∧
    ((pyStarts funcName "divide" || pyStarts funcName "div") = true →
      (⟨[], [("a", .vint 6), ("b", .vint 3)], some (.vint 2)⟩ : GenCase) ∈
        generate_test_cases funcName params ∧
      (⟨[], [("a", .vint 5), ("b", .vint 2)], some (.vfloat (5 / 2))⟩ : GenCase) ∈
        generate_test_cases funcName params ∧
      (⟨[], [("a", .vint 1), ("b", .vint 0)], none⟩ : GenCase) ∈
        generate_test_cases funcName params) := by
  constructor
  · intro h
    have hn : nameCases funcName =
        [⟨[], [("a", .vint 5), ("b", .vint 3)], some (.vint 8)⟩,
         ⟨[], [("a", .vint (-1)), ("b", .vint 1)], some (.vint 0)⟩] := by
      unfold nameCases
      rw [if_pos h]
    refine ⟨mem_generate_of_mem_nameCases _ params ?_, mem_generate_of_mem_nameCases _ params ?_⟩ <;>
      simp [hn]
  · intro h
    have hd : funcName.data.head? = some 'd' := by
      rcases (Bool.or_eq_true _ _).mp h with h1 | h1
      · exact listPr_head (show listPr ('d' :: "ivide".data) funcName.data = true from h1)
      · exact listPr_head (show listPr ('d' :: "iv".data) funcName.data = true from h1)
    have e1 : pyStarts funcName "add" = false :=
      pyStarts_false_of_head hd 'a' "dd".data (by decide)
    have e2 : pyStarts funcName "sum" = false :=
      pyStarts_false_of_head hd 's' "um".data (by decide)
    have e3 : pyStarts funcName "calculate" = false :=
      pyStarts_false_of_head hd 'c' "alculate".data (by decide)
    have e4 : pyStarts funcName "subtract" = false :=
      pyStarts_false_of_head hd 's' "ubtract".data (by decide)
    have e5 : pyStarts funcName "minus" = false :=
      pyStarts_false_of_head hd 'm' "inus".data (by decide)
    have e6 : pyStarts funcName "multiply" = false :=
      pyStarts_false_of_head hd 'm' "ultiply".data (by decide)
    have e7 : pyStarts funcName "times" = false :=
      pyStarts_false_of_head hd 't' "imes".data (by decide)
    have hn : nameCases funcName =
        [⟨[], [("a", .vint 6), ("b", .vint 3)], some (.vint 2)⟩,
         ⟨[], [("a", .vint 5), ("b", .vint 2)], some (.vfloat (5 / 2))⟩,
         ⟨[], [("a", .vint 1), ("b", .vint 0)], none⟩] := by
      unfold nameCases
      rw [e1, e2, e3, e4, e5, e6, e7, h]
      simp
    refine ⟨mem_generate_of_mem_nameCases _ params ?_,
      mem_generate_of_mem_nameCases _ params ?_,
      mem_generate_of_mem_nameCases _ params ?_⟩ <;> simp [hn]

/-- Witness for C5 at the concrete names `add` and `div` with an empty
parameter list. -/
theorem generate_test_cases_known_answers_witness :
    ((⟨[], [("a", .vint 5), ("b", .vint 3)], some (.vint 8)⟩ : GenCase) ∈
        generate_test_cases "add" [] ∧
      (⟨[], [("a", .vint (-1)), ("b", .vint 1)], some (.vint 0)⟩ : GenCase) ∈
        generate_test_cases "add" []) ∧
    ((⟨[], [("a", .vint 6), ("b", .vint 3)], some (.vint 2)⟩ : GenCase) ∈
        generate_test_cases "div" [] ∧
      (⟨[], [("a", .vint 5), ("b", .vint 2)], some (.vfloat (5 / 2))⟩ : GenCase) ∈
        generate_test_cases "div" [] ∧
      (⟨[], [("a", .vint 1), ("b", .vint 0)], none⟩ : GenCase) ∈
        generate_test_cases "div" []) :=
  ⟨(generate_test_cases_known_answers "add" []).1 (by decide),
   (generate_test_cases_known_answers "div" []).2 (by decide)⟩

theorem edgeCases_length (basic : List (String × PyVal)) :
    ∀ params : List (String × ParamInfo),
      (edgeCases basic params).length =
        (params.map (fun p => (edgeCasesFor basic p.1 p.2).length)).sum := by
  intro params
  induction params with
  | nil => rfl
  | cons p rest ih => simp [edgeCases, ih]

theorem edgeCasesFor_ge_two (basic : List (String × PyVal)) (pname : String)
    (info : ParamInfo)
    (h : annLower info.annot ∈ (["str", "int", "float", "list", "dict"] : List String)) :
    2 ≤ (edgeCasesFor basic pname info).length := by
  simp only [List.mem_cons, List.mem_singleton, List.not_mem_nil, or_false] at h
  unfold edgeCasesFor
  rcases h with h | h | h | h | h <;> simp [h]

/-- C8: the synthesized case count is one basic case plus the per-parameter
edge cases (two per string, three per `int`/`float`, two per `list`/`dict`
parameter, via `edgeCasesFor`) plus the name-pattern cases; hence for any
signature with at least one parameter of a recognized type the count is
strictly greater than one. -/
theorem generate_test_cases_coverage_floor (funcName : String)
    (params : List (String × ParamInfo)) :
    (generate_test_cases funcName params).length =
      1 + (params.map (fun p => (edgeCasesFor (basicKwargs params) p.1 p.2).length)).sum
        + (nameCases funcName).length ∧
    ((∃ p ∈ params,
        annLower p.2.annot ∈ (["str", "int", "float", "list", "dict"] : List String)) →
      1 < (generate_test_cases funcName params).length) := by
  have hlen : (generate_test_cases funcName params).length =
      1 + (params.map (fun p => (edgeCasesFor (basicKwargs params) p.1 p.2).length)).sum
        + (nameCases funcName).length := by
    simp [generate_test_cases, edgeCases_length]
    omega
  refine ⟨hlen, ?_⟩
  rintro ⟨p, hp, hty⟩
  have h2 : 2 ≤ (edgeCasesFor (basicKwargs params) p.1 p.2).length :=
    edgeCasesFor_ge_two _ _ _ hty
  have hle : (edgeCasesFor (basicKwargs params) p.1 p.2).length ≤
      (params.map (fun q => (edgeCasesFor (basicKwargs params) q.1 q.2).length)).sum :=
    List.single_le_sum (fun x _ => Nat.zero_le x) _
      (List.mem_map_of_mem (fun q => (edgeCasesFor (basicKwargs params) q.1 q.2).length) hp)
  omega

/-- Witness for C8 at a one-parameter integer signature. -/
theorem generate_test_cases_coverage_floor_witness :
    1 < (generate_test_cases "f" [("a", ⟨"int", none⟩)]).length :=
  (generate_test_cases_coverage_floor "f" [("a", ⟨"int", none⟩)]).2
    ⟨("a", ⟨"int", none⟩), List.mem_singleton.mpr rfl, by decide⟩

theorem test_function_spec {A V : Type} (ev : A → Except (List Char) V)
    (cmp : V → V → Option Bool) :
    ∀ cases : List (HarnessCase A V),
      test_function ev cmp cases =
        (cases.all (fun tc => (runCase ev cmp tc).success), cases.map (runCase ev cmp)) := by
  have aux : ∀ (cases : List (HarnessCase A V)) (b : Bool) (acc : List CaseOutcome),
      cases.foldl
        (fun acc tc =>
          let o := runCase ev cmp tc
          (acc.1 && o.success, acc.2 ++ [o])) (b, acc) =
        (b && cases.all (fun tc => (runCase ev cmp tc).success),
          acc ++ cases.map (runCase ev cmp)) := by
    intro cases
    induction cases with
    | nil => intro b acc; simp
    | cons tc rest ih =>
      intro b acc
      simp only [List.foldl_cons, List.all_cons, List.map_cons, ih, Bool.and_assoc,
        List.append_assoc]
      rfl
  intro cases
  unfold test_function
  rw [aux]
  simp

theorem runCase_success_false_iff {A V : Type} (ev : A → Except (List Char) V)
    (cmp : V → V → Option Bool) (tc : HarnessCase A V) :
    (runCase ev cmp tc).success = false ↔
      (∃ e, ev tc.args = .error e) ∨
        (∃ v e, ev tc.args = .ok v ∧ tc.expected = some e ∧ cmp v e = some false) := by
  unfold runCase
  cases hev : ev tc.args with
  | error e => simp [hev]
  | ok v =>
    cases hexp : tc.expected with
    | none => simp [hexp]
    | some e =>
      cases hcmp : cmp v e with
      | none => simp [hcmp]
      | some b => cases b <;> simp [hcmp]

/-- C4 (amended): the harness marks a function failing exactly when some
case raised during invocation or some comparison returned an actual
non-match; a case whose comparison itself raises is recorded with
`matches_expected = False` but stays successful and does not count toward
the function failing; and one outcome is recorded per case (none dropped). -/
theorem test_function_failing_characterization {A V : Type}
    (ev : A → Except (List Char) V) (cmp : V → V → Option Bool)
    (cases : List (HarnessCase A V)) :
    ((test_function ev cmp cases).1 = false ↔
      ∃ tc ∈ cases,
        (∃ e, ev tc.args = .error e) ∨
          (∃ v e, ev tc.args = .ok v ∧ tc.expected = some e ∧ cmp v e = some false)) ∧
    (test_function ev cmp cases).2.length = cases.length ∧
    (∀ tc : HarnessCase A V, ∀ v e, ev tc.args = .ok v → tc.expected = some e →
      cmp v e = none →
      runCase ev cmp tc = ⟨true, false, some false⟩) := by
  refine ⟨?_, ?_, ?_⟩
  · rw [test_function_spec]
    simp only [List.all_eq_false]
    constructor
    · rintro ⟨tc, htc, hfail⟩
      exact ⟨tc, htc, (runCase_success_false_iff ev cmp tc).mp (by
        cases h : (runCase ev cmp tc).success
        · rfl
        · exact absurd h hfail)⟩
    · rintro ⟨tc, htc, hfail⟩
      exact ⟨tc, htc, by
        rw [(runCase_success_false_iff ev cmp tc).mpr hfail]
        simp⟩
  · rw [test_function_spec]
    simp
  · intro tc v e hev hexp hcmp
    unfold runCase
    rw [hev, hexp]
    simp [hcmp]

/-- Witness for C4's comparison-raise clause at a concrete unit-valued
function whose comparison oracle always raises. -/
theorem test_function_failing_characterization_witness :
    runCase (fun _ : Unit => Except.ok ()) (fun _ _ => (none : Option Bool))
      ⟨(), some ()⟩ = ⟨true, false, some false⟩ :=
  (test_function_failing_characterization (fun _ : Unit => Except.ok ())
    (fun _ _ => (none : Option Bool)) []).2.2 ⟨(), some ()⟩ () () rfl rfl rfl

/-- C4 counterexample: with one test case whose invocation succeeds and
whose equality comparison raises, the recorded outcome is non-matching
(`matches_expected = False`) yet the case and the whole function are still
marked successful — the claim's "counts toward the function failing" is
false on the code. -/
theorem test_function_comparison_raise_counterexample :
    test_function (fun _ : Unit => Except.ok ()) (fun _ _ => (none : Option Bool))
      [⟨(), some ()⟩] = (true, [⟨true, false, some false⟩]) := by
  rfl



theorem debugLoop_pass (analyzeOk testPass : List Char → Bool)
    (llm : List Char → Option (List Char)) (hA : ∀ c, analyzeOk c = true) :
    ∀ N fuel attempts code, passWithin testPass llm N code = true → N ≤ fuel →
      (debugLoop analyzeOk testPass llm fuel attempts code).1 = true ∧
      (debugLoop analyzeOk testPass llm fuel attempts code).2.1 ≤ attempts + N := by
  intro N
  induction N with
  | zero =>
    intro fuel attempts code h _
    simp [passWithin] at h
  | succ n ih =>
    intro fuel attempts code h hle
    cases fuel with
    | zero => omega
    | succ f =>
      cases htp : testPass code with
      | true =>
        have hred : debugLoop analyzeOk testPass llm (f + 1) attempts code =
            (true, attempts + 1, code) := by
          simp only [debugLoop]
          simp [hA code, htp]
        rw [hred]
        refine ⟨rfl, ?_⟩
        show attempts + 1 ≤ attempts + (n + 1)
        omega
      | false =>
        unfold passWithin at h
        rw [htp] at h
        simp only [Bool.false_or] at h
        cases hfix : fix_tool_code (llm code) with
        | none =>
          rw [hfix] at h
          simp at h
        | some fixed =>
          rw [hfix] at h
          have hred : debugLoop analyzeOk testPass llm (f + 1) attempts code =
              debugLoop analyzeOk testPass llm f (attempts + 1) fixed := by
            simp only [debugLoop]
            simp [hA code, htp, hfix]
          rw [hred]
          have := ih f (attempts + 1) fixed h (by omega)
          exact ⟨this.1, by omega⟩

theorem debugLoop_exhaust (analyzeOk testPass : List Char → Bool)
    (llm : List Char → Option (List Char)) (hA : ∀ c, analyzeOk c = true)
    (hT : ∀ c, testPass c = false)
    (hF : ∀ c, (fix_tool_code (llm c)).isSome = true) :
    ∀ fuel attempts code,
      debugLoop analyzeOk testPass llm fuel attempts code =
        (false, attempts + fuel, fixIter llm fuel code) := by
  intro fuel
  induction fuel with
  | zero => intro attempts code; simp [debugLoop, fixIter]
  | succ f ih =>
    intro attempts code
    cases hfix : fix_tool_code (llm code) with
    | none =>
      have := hF code
      rw [hfix] at this
      simp at this
    | some fixed =>
      have hred : debugLoop analyzeOk testPass llm (f + 1) attempts code =
          debugLoop analyzeOk testPass llm f (attempts + 1) fixed := by
        simp only [debugLoop]
        simp [hA code, hT code, hfix]
      have hfi : fixIter llm (f + 1) code = fixIter llm f fixed := by
        simp only [fixIter]
        rw [hfix]
      rw [hred, ih (attempts + 1) fixed, hfi]
      have harith : attempts + 1 + f = attempts + (f + 1) := by omega
      rw [harith]

/-- C1: for a tool whose module introspects successfully every iteration,
(a) if the tests all pass within `N ≤ maxAttempts` iterations then
`debug_code` returns `True` with an iteration count at most `N`, and
(b) if the tests never all pass while every fix attempt yields a usable
replacement, `debug_code` returns `False` after exactly `maxAttempts`
iterations, leaving the module in the state written by the last applied
fix (`fixIter llm maxAttempts code`). -/
theorem debug_code_convergence_and_exhaustion
    (analyzeOk testPass : List Char → Bool) (llm : List Char → Option (List Char))
    (maxAttempts : Nat) (code : List Char) (hA : ∀ c, analyzeOk c = true) :
    (∀ N, passWithin testPass llm N code = true → N ≤ maxAttempts →
      (debug_code analyzeOk testPass llm maxAttempts code).1 = true ∧
      (debug_code analyzeOk testPass llm maxAttempts code).2.1 ≤ N) ∧
    ((∀ c, testPass c = false) → (∀ c, (fix_tool_code (llm c)).isSome = true) →
      debug_code analyzeOk testPass llm maxAttempts code =
        (false, maxAttempts, fixIter llm maxAttempts code)) := by
  constructor
  · intro N h hle
    have := debugLoop_pass analyzeOk testPass llm hA N maxAttempts 0 code h hle
    refine ⟨this.1, ?_⟩
    have h2 := this.2
    unfold debug_code
    omega
  · intro hT hF
    have := debugLoop_exhaust analyzeOk testPass llm hA hT hF maxAttempts 0 code
    unfold debug_code
    rw [this]
    have : 0 + maxAttempts = maxAttempts := by omega
    rw [this]

/-- Witness for C1: a module that passes immediately converges within a
one-iteration budget, and a never-passing module with an always-accepted
fix exhausts a two-iteration budget ending in the twice-fixed state. -/
theorem debug_code_convergence_and_exhaustion_witness :
    ((debug_code (fun _ => true) (fun _ => true) (fun _ => none) 1 []).1 = true ∧
      (debug_code (fun _ => true) (fun _ => true) (fun _ => none) 1 []).2.1 ≤ 1) ∧
    debug_code (fun _ => true) (fun _ => false) (fun _ => some (strL "def f")) 2 [] =
      (false, 2, fixIter (fun _ => some (strL "def f")) 2 []) :=
  ⟨(debug_code_convergence_and_exhaustion (fun _ => true) (fun _ => true)
      (fun _ => none) 1 [] (fun _ => rfl)).1 1 (by decide) (by decide),
   (debug_code_convergence_and_exhaustion (fun _ => true) (fun _ => false)
      (fun _ => some (strL "def f")) 2 [] (fun _ => rfl)).2 (fun _ => rfl)
      (fun _ => by decide)⟩

/-- C3: when the text extracted from a Gateway-proposed fix contains no
`"def "` occurrence, `fix_tool_code` yields no usable replacement, and the
debug iteration that received it ends the session as failed with the
module text exactly as it was before the fix attempt (no write occurs). -/
theorem fix_without_def_rejected_and_module_untouched (content : List Char)
    (h : containsSub defTok (strip_code_fences content) = false) :
    fix_tool_code (some content) = none ∧
    ∀ (analyzeOk testPass : List Char → Bool) (llm : List Char → Option (List Char))
      (fuel attempts : Nat) (code : List Char),
      llm code = some content → analyzeOk code = true → testPass code = false →
      debugLoop analyzeOk testPass llm (fuel + 1) attempts code =
        (false, attempts + 1, code) := by
  have hfix : fix_tool_code (some content) = none := by
    unfold fix_tool_code
    simp [h]
  refine ⟨hfix, ?_⟩
  intro analyzeOk testPass llm fuel attempts code hl hA hT
  simp only [debugLoop]
  rw [hl]
  simp [hA, hT, hfix, hl]

/-- Witness for C3: a fix whose content has no function definition leaves a
concrete one-iteration session failed with the module unchanged. -/
theorem fix_without_def_rejected_and_module_untouched_witness :
    fix_tool_code (some (strL "no functions here")) = none ∧
    debugLoop (fun _ => true) (fun _ => false)
      (fun _ => some (strL "no functions here")) 1 0 (strL "x = 1") =
      (false, 1, strL "x = 1") :=
  ⟨(fix_without_def_rejected_and_module_untouched (strL "no functions here")
      (by decide)).1,
   (fix_without_def_rejected_and_module_untouched (strL "no functions here")
      (by decide)).2 (fun _ => true) (fun _ => false)
      (fun _ => some (strL "no functions here")) 0 0 (strL "x = 1") rfl rfl rfl⟩

/-- C7 counterexample: a Gateway transport error during documentation
generation propagates out of `tool_pipeline` as an exception — the pipeline
does not return an outcome string, refuting "never raises past its
boundary" (only the library step sits in a `try/except`). -/
theorem tool_pipeline_transport_error_counterexample :
    tool_pipeline "t" (.error (strL "connection refused")) (.ok [])
      (.ok []) (.ok []) true none = .error (strL "connection refused") := by
  rfl

/-- C7 (amended): when the documentation and code generation Gateway calls
do not raise, `tool_pipeline` returns a human-readable outcome string for
every debug result and library outcome (the library step's failures are
caught); but a transport error raised by the first documentation call
propagates out of `tool_pipeline` unchanged. -/
theorem tool_pipeline_outcome (toolName : String)
    (g1 g2 g3 gcode : Except TErr (List Char)) (debugResult : Bool)
    (lib : Option (Bool × List Char)) :
    ((∃ d, g1 = .ok d) → (∃ f, g2 = .ok f) → (∃ s, g3 = .ok s) →
      (∃ c, gcode = .ok c) →
      ∃ msg, tool_pipeline toolName g1 g2 g3 gcode debugResult lib = .ok msg) ∧
    (∀ e, g1 = .error e →
      tool_pipeline toolName g1 g2 g3 gcode debugResult lib = .error e) := by
  constructor
  · rintro ⟨d, rfl⟩ ⟨f, rfl⟩ ⟨s, rfl⟩ ⟨c, rfl⟩
    rcases lib with _ | ⟨b, msg⟩
    · exact ⟨_, rfl⟩
    · cases b
      · exact ⟨_, rfl⟩
      · exact ⟨_, rfl⟩
  · rintro e rfl
    rfl

/-- Witness for C7's success side at concrete all-ok Gateway results, with
its propagation side at a concrete transport error. -/
theorem tool_pipeline_outcome_witness :
    (∃ msg, tool_pipeline "t" (.ok []) (.ok []) (.ok []) (.ok []) false none =
      .ok msg) ∧
    tool_pipeline "t" (.error (strL "boom")) (.ok []) (.ok []) (.ok []) false
      (some (true, [])) = .error (strL "boom") :=
  ⟨(tool_pipeline_outcome "t" (.ok []) (.ok []) (.ok []) (.ok []) false none).1
      ⟨[], rfl⟩ ⟨[], rfl⟩ ⟨[], rfl⟩ ⟨[], rfl⟩,
   (tool_pipeline_outcome "t" (.error (strL "boom")) (.ok []) (.ok []) (.ok [])
      false (some (true, []))).2 (strL "boom") rfl⟩

theorem extract_args_eq_map (msg : List Char) (g : String → Option (List Char)) :
    ∀ ps : List String,
      extract_args_from_message msg g ps = ps.map (resolveParam msg g) := by
  intro ps
  induction ps with
  | nil => rfl
  | cons p rest ih => simp [extract_args_from_message, ih]

theorem stripSomes_map_some (l : List (Option (List Char)))
    (h : hasNone l = false) : (stripSomes l).map some = l := by
  induction l with
  | nil => rfl
  | cons a as ih =>
    simp only [hasNone, List.any_cons, Bool.or_eq_false_iff] at h
    cases a with
    | none => simp at h
    | some v =>
      have hrest := ih (by simpa [hasNone] using h.2)
      simp [stripSomes] at hrest ⊢
      exact hrest

theorem fallbackLoop_some_spec (msg : List Char) (g : String → Option (List Char)) :
    ∀ (functions : List FuncDef) (fn : String) (args : List (List Char)),
      fallbackLoop msg g functions = (some fn, args) →
      ∃ f ∈ functions, f.name = fn ∧
        hasNone (extract_args_from_message msg g f.parameters) = false ∧
        args = stripSomes (extract_args_from_message msg g f.parameters) := by
  intro functions
  induction functions with
  | nil => intro fn args h; simp [fallbackLoop] at h
  | cons f rest ih =>
    intro fn args h
    unfold fallbackLoop at h
    by_cases hsub : containsSub (pyLower f.name.data) (pyLower msg) = true
    · rw [if_pos hsub] at h
      by_cases hmiss : hasNone (extract_args_from_message msg g f.parameters) = true
      · rw [if_pos hmiss] at h
        obtain ⟨f', hf', hspec⟩ := ih fn args h
        exact ⟨f', List.mem_cons_of_mem _ hf', hspec⟩
      · rw [if_neg hmiss] at h
        obtain ⟨h1, h2⟩ := Prod.mk.injEq .. ▸ h
        exact ⟨f, List.mem_cons_self .., Option.some.inj h1, by
          simpa using hmiss, h2.symm⟩
    · rw [if_neg hsub] at h
      obtain ⟨f', hf', hspec⟩ := ih fn args h
      exact ⟨f', List.mem_cons_of_mem _ hf', hspec⟩

theorem determine_some_spec (functions : List FuncDef) (msg : List Char)
    (classifier : Option (Option String)) (g : String → Option (List Char))
    (fn : String) (args : List (List Char))
    (h : determine_function_and_args functions msg classifier g = (some fn, args)) :
    ∃ f ∈ functions, f.name = fn ∧
      hasNone (extract_args_from_message msg g f.parameters) = false ∧
      args = stripSomes (extract_args_from_message msg g f.parameters) := by
  unfold determine_function_and_args at h
  rcases classifier with _ | sel
  · exact fallbackLoop_some_spec msg g functions fn args h
  · rcases sel with _ | sel
    · exact fallbackLoop_some_spec msg g functions fn args h
    · have h' : (if sel.isEmpty = true then fallbackLoop msg g functions
          else
            match classifierSelect functions msg g sel with
            | some r => r
            | none => fallbackLoop msg g functions) = (some fn, args) := h
      by_cases hempty : sel.isEmpty = true
      · rw [if_pos hempty] at h'
        exact fallbackLoop_some_spec msg g functions fn args h'
      · rw [if_neg hempty] at h'
        cases hcs : classifierSelect functions msg g sel with
        | none =>
          rw [hcs] at h'
          exact fallbackLoop_some_spec msg g functions fn args h'
        | some r =>
          rw [hcs] at h'
          replace h : r = (some fn, args) := h'
          unfold classifierSelect at hcs
          cases hfind : functions.find? (fun f => f.name = sel) with
          | none => rw [hfind] at hcs; exact absurd hcs (by simp)
          | some f =>
            rw [hfind] at hcs
            have hcs2 : (if hasNone (extract_args_from_message msg g f.parameters) = true
                then some ((none, []) : Option String × List (List Char))
                else some (some f.name,
                  stripSomes (extract_args_from_message msg g f.parameters))) = some r := hcs
            by_cases hmiss : hasNone (extract_args_from_message msg g f.parameters) = true
            · rw [if_pos hmiss] at hcs2
              rw [h] at hcs2
              simp at hcs2
            · rw [if_neg hmiss] at hcs2
              rw [h] at hcs2
              obtain ⟨h1, h2⟩ := Prod.mk.injEq .. ▸ (Option.some.inj hcs2)
              exact ⟨f, List.mem_of_find?_eq_some hfind, Option.some.inj h1, by
                simpa using hmiss, h2.symm⟩

/-- C10: on a successful selection and extraction, `run_tool` invokes the
chosen function once, with the extracted values passed positionally
(`(*args)`, the invocation-log entry), one value per catalog parameter and
in the catalog's parameter order (`args.map some` equals the per-parameter
resolution map over `f.parameters`); no keyword passing exists in this call
shape, so correctness relies on the catalog order matching the
implementation's parameter order. -/
theorem run_tool_positional_invocation (toolName : String)
    (functions : List FuncDef) (hasAttr : String → Bool)
    (call : String → List (List Char) → Except (List Char) (List Char))
    (msg : List Char) (classifier : Option (Option String))
    (g : String → Option (List Char)) (fn : String) (args : List (List Char))
    (hdet : determine_function_and_args functions msg classifier g = (some fn, args))
    (himpl : hasAttr fn = true) :
    (run_tool_dispatch toolName functions hasAttr call msg classifier g).2 =
      [(fn, args)] ∧
    ∃ f ∈ functions, f.name = fn ∧
      args.map some = f.parameters.map (resolveParam msg g) := by
  constructor
  · unfold run_tool_dispatch
    rw [hdet]
    simp only [himpl, if_pos rfl]
    cases call fn args <;> rfl
  · obtain ⟨f, hf, hname, hmiss, hargs⟩ :=
      determine_some_spec functions msg classifier g fn args hdet
    refine ⟨f, hf, hname, ?_⟩
    rw [hargs, stripSomes_map_some _ hmiss, extract_args_eq_map]

/-- Witness for C10 at a concrete one-parameter tool where the classifier
selects `greet` and the regex stage resolves `name`. -/
theorem run_tool_positional_invocation_witness :
    (run_tool_dispatch "greeter" [⟨"greet", ["name"]⟩] (fun _ => true)
      (fun _ _ => .ok []) (strL "greet name: alice") (some (some "greet"))
      (fun _ => none)).2 = [("greet", [strL "alice"])] ∧
    ∃ f ∈ [(⟨"greet", ["name"]⟩ : FuncDef)], f.name = "greet" ∧
      [strL "alice"].map some =
        f.parameters.map (resolveParam (strL "greet name: alice") (fun _ => none)) :=
  run_tool_positional_invocation "greeter" [⟨"greet", ["name"]⟩] (fun _ => true)
    (fun _ _ => .ok []) (strL "greet name: alice") (some (some "greet"))
    (fun _ => none) "greet" [strL "alice"] (by decide) rfl

/-- C2 (amended): a function with an unresolved parameter is never invoked —
any invocation-log entry comes from a catalog function whose full argument
list resolved — and when no selection survives, the caller receives the
generic no-suitable-function message listing every catalog function with
all its parameters; the specific unresolved parameter names are not
reported in the returned result. -/
theorem run_tool_never_calls_with_missing_args (toolName : String)
    (functions : List FuncDef) (hasAttr : String → Bool)
    (call : String → List (List Char) → Except (List Char) (List Char))
    (msg : List Char) (classifier : Option (Option String))
    (g : String → Option (List Char)) :
    (∀ fn args,
      (run_tool_dispatch toolName functions hasAttr call msg classifier g).2 =
        [(fn, args)] →
      ∃ f ∈ functions, f.name = fn ∧
        hasNone (extract_args_from_message msg g f.parameters) = false) ∧
    ((determine_function_and_args functions msg classifier g).1 = none →
      run_tool_dispatch toolName functions hasAttr call msg classifier g =
        (noFunctionMsg toolName functions, [])) := by
  constructor
  · intro fn args hlog
    rcases hdet : determine_function_and_args functions msg classifier g with ⟨o, a⟩
    unfold run_tool_dispatch at hlog
    rw [hdet] at hlog
    rcases o with _ | fn0
    · simp at hlog
    · have hlog2 : ((if hasAttr fn0 = true then
          match call fn0 a with
          | Except.ok r => (strL ("Result from " ++ fn0 ++ ": ") ++ r, [(fn0, a)])
          | Except.error e =>
            (strL ("Error running function " ++ fn0 ++ ": ") ++ e, [(fn0, a)])
        else
          (strL ("Error: Function '" ++ fn0 ++
            "' is defined in documentation but not implemented in the tool code."),
            [])) : List Char × List (String × List (List Char))).2 =
          [(fn, args)] := hlog
      by_cases himpl : hasAttr fn0 = true
      · rw [if_pos himpl] at hlog2
        have hfa : fn0 = fn ∧ a = args := by
          cases hc : call fn0 a with
          | ok r => rw [hc] at hlog2; simpa using hlog2
          | error e => rw [hc] at hlog2; simpa using hlog2
        obtain ⟨f, hf, hname, hmiss, _⟩ :=
          determine_some_spec functions msg classifier g fn0 a hdet
        exact ⟨f, hf, hfa.1 ▸ hname, hmiss⟩
      · rw [if_neg himpl] at hlog2
        simp at hlog2
  · intro hdet1
    rcases hdet : determine_function_and_args functions msg classifier g with ⟨o, a⟩
    rw [hdet] at hdet1
    unfold run_tool_dispatch
    rw [hdet]
    cases o with
    | none => rfl
    | some fn0 => simp at hdet1

/-- Witness for C2's amended statement: the invoked-function side at a
resolving one-parameter tool, and the reporting side at a tool whose second
parameter cannot be resolved. -/
theorem run_tool_never_calls_with_missing_args_witness :
    (∃ f ∈ [(⟨"greet", ["who"]⟩ : FuncDef)], f.name = "greet" ∧
      hasNone (extract_args_from_message (strL "greet who: bob") (fun _ => none)
        f.parameters) = false) ∧
    run_tool_dispatch "mailer" [⟨"send_email", ["recipient", "subject"]⟩]
      (fun _ => true) (fun _ _ => .ok []) (strL "send_email recipient: bob")
      (some (some "send_email")) (fun _ => none) =
      (noFunctionMsg "mailer" [⟨"send_email", ["recipient", "subject"]⟩], []) :=
  ⟨(run_tool_never_calls_with_missing_args "greeter" [⟨"greet", ["who"]⟩]
      (fun _ => true) (fun _ _ => .ok []) (strL "greet who: bob")
      (some (some "greet")) (fun _ => none)).1 "greet" [strL "bob"] (by decide),
   (run_tool_never_calls_with_missing_args "mailer"
      [⟨"send_email", ["recipient", "subject"]⟩] (fun _ => true)
      (fun _ _ => .ok []) (strL "send_email recipient: bob")
      (some (some "send_email")) (fun _ => none)).2 (by decide)⟩

/-- C2 counterexample: with parameters `recipient` (resolvable from the
message) and `subject` (unresolvable), the function is indeed never invoked
(empty log), but the returned result is the full catalog listing — it
mentions the resolved parameter `recipient` as well, so it does not report
exactly the names of the unresolved parameters. -/
theorem run_tool_missing_args_report_counterexample :
    (run_tool_dispatch "mailer" [⟨"send_email", ["recipient", "subject"]⟩]
      (fun _ => true) (fun _ _ => .ok []) (strL "send_email recipient: bob")
      (some (some "send_email")) (fun _ => none)).2 = [] ∧
    (resolveParam (strL "send_email recipient: bob") (fun _ => none)
      "recipient").isSome = true ∧
    resolveParam (strL "send_email recipient: bob") (fun _ => none)
      "subject" = none ∧
    (run_tool_dispatch "mailer" [⟨"send_email", ["recipient", "subject"]⟩]
      (fun _ => true) (fun _ _ => .ok []) (strL "send_email recipient: bob")
      (some (some "send_email")) (fun _ => none)).1 =
      noFunctionMsg "mailer" [⟨"send_email", ["recipient", "subject"]⟩] ∧
    containsSub (strL "recipient")
      (run_tool_dispatch "mailer" [⟨"send_email", ["recipient", "subject"]⟩]
        (fun _ => true) (fun _ _ => .ok []) (strL "send_email recipient: bob")
        (some (some "send_email")) (fun _ => none)).1 = true := by
  refine ⟨by decide, by decide, by decide, by decide, by decide⟩

theorem fallbackLoop_first_resolved (msg : List Char)
    (g : String → Option (List Char)) :
    ∀ (pre : List FuncDef) (f : FuncDef) (post : List FuncDef),
      (∀ f' ∈ pre, containsSub (pyLower f'.name.data) (pyLower msg) = false ∨
        hasNone (extract_args_from_message msg g f'.parameters) = true) →
      containsSub (pyLower f.name.data) (pyLower msg) = true →
      hasNone (extract_args_from_message msg g f.parameters) = false →
      fallbackLoop msg g (pre ++ f :: post) =
        (some f.name, stripSomes (extract_args_from_message msg g f.parameters)) := by
  intro pre
  induction pre with
  | nil =>
    intro f post _ hsub hres
    unfold fallbackLoop
    rw [List.nil_append] at *
    simp [hsub, hres]
  | cons p pre' ih =>
    intro f post hpre hsub hres
    have hp := hpre p (List.mem_cons_self ..)
    have hrest : ∀ f' ∈ pre',
        containsSub (pyLower f'.name.data) (pyLower msg) = false ∨
        hasNone (extract_args_from_message msg g f'.parameters) = true :=
      fun f' hf' => hpre f' (List.mem_cons_of_mem _ hf')
    rw [List.cons_append]
    unfold fallbackLoop
    rcases hp with hp | hp
    · simp [hp]
      exact ih f post hrest hsub hres
    · simp [hp]
      exact ih f post hrest hsub hres

/-- C6 (amended): when the classifier path errors or selects null, function
selection falls back to case-insensitive substring matching of the catalog
names against the instruction, in catalog order, where the first match
whose arguments all resolve wins (a match with unresolved arguments is
skipped); in particular, for the catalog `send_email`/`list_files` and the
instruction "please list_files in this folder", `list_files` is selected. -/
theorem determine_fallback_substring_selection (functions : List FuncDef)
    (msg : List Char) (classifier : Option (Option String))
    (g : String → Option (List Char))
    (hcf : classifier = none ∨ classifier = some none) :
    (∀ (pre : List FuncDef) (f : FuncDef) (post : List FuncDef),
      functions = pre ++ f :: post →
      (∀ f' ∈ pre, containsSub (pyLower f'.name.data) (pyLower msg) = false ∨
        hasNone (extract_args_from_message msg g f'.parameters) = true) →
      containsSub (pyLower f.name.data) (pyLower msg) = true →
      hasNone (extract_args_from_message msg g f.parameters) = false →
      determine_function_and_args functions msg classifier g =
        (some f.name, stripSomes (extract_args_from_message msg g f.parameters))) ∧
    (∀ g2 : String → Option (List Char),
      determine_function_and_args
        [⟨"send_email", ["recipient", "subject"]⟩, ⟨"list_files", []⟩]
        (strL "please list_files in this folder") classifier g2 =
        (some "list_files", [])) := by
  constructor
  · intro pre f post hsplit hpre hsub hres
    have hfb : determine_function_and_args functions msg classifier g =
        fallbackLoop msg g functions := by
      rcases hcf with rfl | rfl <;> rfl
    rw [hfb, hsplit]
    exact fallbackLoop_first_resolved msg g pre f post hpre hsub hres
  · intro g2
    rcases hcf with rfl | rfl <;> rfl

/-- Witness for C6 at a catalog whose first substring match has an
unresolvable parameter, plus the claim's own `list_files` example. -/
theorem determine_fallback_substring_selection_witness :
    determine_function_and_args [⟨"alpha", ["x"]⟩, ⟨"beta", []⟩]
      (strL "alpha beta") none (fun _ => none) = (some "beta", []) ∧
    determine_function_and_args
      [⟨"send_email", ["recipient", "subject"]⟩, ⟨"list_files", []⟩]
      (strL "please list_files in this folder") none (fun _ => none) =
      (some "list_files", []) :=
  ⟨(determine_fallback_substring_selection [⟨"alpha", ["x"]⟩, ⟨"beta", []⟩]
      (strL "alpha beta") none (fun _ => none) (Or.inl rfl)).1
      [⟨"alpha", ["x"]⟩] ⟨"beta", []⟩ [] rfl (by decide) (by decide) (by decide),
   (determine_fallback_substring_selection [⟨"alpha", ["x"]⟩, ⟨"beta", []⟩]
      (strL "alpha beta") none (fun _ => none) (Or.inl rfl)).2 (fun _ => none)⟩

/-- C6 counterexample: with catalog order `alpha` (one unresolvable
parameter) then `beta` (no parameters) and instruction "alpha beta", the
first substring match is `alpha`, yet the fallback selects `beta` — "first
match wins" is false as stated: a match whose arguments do not resolve is
skipped. -/
theorem determine_fallback_first_match_counterexample :
    containsSub (pyLower (strL "alpha")) (pyLower (strL "alpha beta")) = true ∧
    determine_function_and_args [⟨"alpha", ["x"]⟩, ⟨"beta", []⟩]
      (strL "alpha beta") none (fun _ => none) = (some "beta", []) := by
  refine ⟨by decide, by decide⟩

theorem ofNat_plus32_not_upper (n : Nat) (h1 : 65 ≤ n) (h2 : n ≤ 90) :
    (Char.ofNat (n + 32)).isUpper = false := by
  interval_cases n <;> decide

theorem pyLowerChar_not_upper (c : Char) : (pyLowerChar c).isUpper = false := by
  unfold pyLowerChar
  by_cases h : c.isUpper = true
  · rw [if_pos h]
    have hb := h
    unfold Char.isUpper at hb
    rw [Bool.and_eq_true] at hb
    have h65 : (65 : UInt32) ≤ c.val := of_decide_eq_true hb.1
    have h90 : c.val ≤ (90 : UInt32) := of_decide_eq_true hb.2
    have h65n : 65 ≤ c.toNat := UInt32.le_toNat_of_le (by decide) h65
    have h90n : c.toNat ≤ 90 := UInt32.toNat_le_of_le (by decide) h90
    exact ofNat_plus32_not_upper c.toNat h65n h90n
  · rw [if_neg h]
    simpa using h

theorem pyLower_not_upper (msg : List Char) :
    ∀ c ∈ pyLower msg, c.isUpper = false := by
  intro c hc
  simp only [pyLower, List.mem_map] at hc
  obtain ⟨a, _, rfl⟩ := hc
  exact pyLowerChar_not_upper a

theorem pyStrip_subset (l : List Char) : ∀ c ∈ pyStrip l, c ∈ l := by
  intro c hc
  unfold pyStrip at hc
  rw [List.mem_reverse] at hc
  have hc2 := (List.dropWhile_sublist pyWs).subset hc
  rw [List.mem_reverse] at hc2
  exact (List.dropWhile_sublist pyWs).subset hc2

theorem dropLit_suffix : ∀ (l s rest : List Char), dropLit l s = some rest →
    rest <:+ s := by
  intro l
  induction l with
  | nil =>
    intro s rest h
    have hsr : s = rest := Option.some.inj h
    subst hsr
    exact List.suffix_refl s
  | cons a as ih =>
    intro s rest h
    cases s with
    | nil => simp [dropLit] at h
    | cons b bs =>
      unfold dropLit at h
      by_cases hab : a = b
      · rw [if_pos hab] at h
        exact (ih bs rest h).trans (List.suffix_cons b bs)
      · rw [if_neg hab] at h
        cases h

theorem rmatchAll_suffix : ∀ (r : Rx) (s : List Char)
    (caps0 : List (Nat × List Char)) (pr : List Char × List (Nat × List Char)),
    pr ∈ rmatchAll r s caps0 → pr.1 <:+ s := by
  intro r
  induction r with
  | eps =>
    intro s caps0 pr h
    simp only [rmatchAll, List.mem_singleton] at h
    rw [h]
  | cls p =>
    intro s caps0 pr h
    cases s with
    | nil => simp [rmatchAll] at h
    | cons c rest =>
      by_cases hpc : p c = true
      · simp only [rmatchAll, hpc, if_pos, List.mem_singleton] at h
        rw [h]
        exact List.suffix_cons c rest
      · simp [rmatchAll, hpc] at h
  | lit l =>
    intro s caps0 pr h
    cases hdl : dropLit l s with
    | none => simp [rmatchAll, hdl] at h
    | some rest =>
      simp only [rmatchAll, hdl, List.mem_singleton] at h
      rw [h]
      exact dropLit_suffix l s rest hdl
  | seq a b iha ihb =>
    intro s caps0 pr h
    simp only [rmatchAll, List.mem_flatMap] at h
    obtain ⟨pr1, h1, h2⟩ := h
    exact (ihb pr1.1 pr1.2 pr h2).trans (iha s caps0 pr1 h1)
  | alt a b iha ihb =>
    intro s caps0 pr h
    simp only [rmatchAll, List.mem_append] at h
    rcases h with h | h
    · exact iha s caps0 pr h
    · exact ihb s caps0 pr h
  | starG p =>
    intro s caps0 pr h
    simp only [rmatchAll, List.mem_map] at h
    obtain ⟨k, _, rfl⟩ := h
    exact List.drop_suffix k s
  | starL p =>
    intro s caps0 pr h
    simp only [rmatchAll, List.mem_map] at h
    obtain ⟨k, _, rfl⟩ := h
    exact List.drop_suffix k s
  | opt a iha =>
    intro s caps0 pr h
    simp only [rmatchAll, List.mem_append, List.mem_singleton] at h
    rcases h with h | h
    · exact iha s caps0 pr h
    · rw [h]
  | grp n a iha =>
    intro s caps0 pr h
    simp only [rmatchAll, List.mem_map] at h
    obtain ⟨pr1, h1, rfl⟩ := h
    exact iha s caps0 pr1 h1

theorem rmatchAll_caps_chars : ∀ (r : Rx) (s : List Char)
    (caps0 : List (Nat × List Char)) (pr : List Char × List (Nat × List Char)),
    pr ∈ rmatchAll r s caps0 →
    ∀ x ∈ pr.2, x ∈ caps0 ∨ ∀ c ∈ x.2, c ∈ s := by
  intro r
  induction r with
  | eps =>
    intro s caps0 pr h x hx
    simp only [rmatchAll, List.mem_singleton] at h
    rw [h] at hx
    exact Or.inl hx
  | cls p =>
    intro s caps0 pr h x hx
    cases s with
    | nil => simp [rmatchAll] at h
    | cons c rest =>
      by_cases hpc : p c = true
      · simp only [rmatchAll, hpc, if_pos, List.mem_singleton] at h
        rw [h] at hx
        exact Or.inl hx
      · simp [rmatchAll, hpc] at h
  | lit l =>
    intro s caps0 pr h x hx
    cases hdl : dropLit l s with
    | none => simp [rmatchAll, hdl] at h
    | some rest =>
      simp only [rmatchAll, hdl, List.mem_singleton] at h
      rw [h] at hx
      exact Or.inl hx
  | seq a b iha ihb =>
    intro s caps0 pr h x hx
    simp only [rmatchAll, List.mem_flatMap] at h
    obtain ⟨pr1, h1, h2⟩ := h
    rcases ihb pr1.1 pr1.2 pr h2 x hx with hx1 | hx1
    · rcases iha s caps0 pr1 h1 x hx1 with hx2 | hx2
      · exact Or.inl hx2
      · exact Or.inr hx2
    · exact Or.inr fun c hc =>
        (rmatchAll_suffix a s caps0 pr1 h1).subset (hx1 c hc)
  | alt a b iha ihb =>
    intro s caps0 pr h x hx
    simp only [rmatchAll, List.mem_append] at h
    rcases h with h | h
    · exact iha s caps0 pr h x hx
    · exact ihb s caps0 pr h x hx
  | starG p =>
    intro s caps0 pr h x hx
    simp only [rmatchAll, List.mem_map] at h
    obtain ⟨k, _, rfl⟩ := h
    exact Or.inl hx
  | starL p =>
    intro s caps0 pr h x hx
    simp only [rmatchAll, List.mem_map] at h
    obtain ⟨k, _, rfl⟩ := h
    exact Or.inl hx
  | opt a iha =>
    intro s caps0 pr h x hx
    simp only [rmatchAll, List.mem_append, List.mem_singleton] at h
    rcases h with h | h
    · exact iha s caps0 pr h x hx
    · rw [h] at hx
      exact Or.inl hx
  | grp n a iha =>
    intro s caps0 pr h x hx
    simp only [rmatchAll, List.mem_map] at h
    obtain ⟨pr1, h1, rfl⟩ := h
    simp only [List.mem_append, List.mem_singleton] at hx
    rcases hx with hx | hx
    · exact iha s caps0 pr1 h1 x hx
    · rw [hx]
      exact Or.inr fun c hc => List.take_subset _ _ hc

theorem searchList_caps_chars (r : Rx) : ∀ (s : List Char)
    (caps : List (Nat × List Char)), searchList r s = some caps →
    ∀ x ∈ caps, ∀ c ∈ x.2, c ∈ s := by
  intro s
  induction s with
  | nil =>
    intro caps h x hx c hc
    unfold searchList at h
    cases hm : rmatchAll r [] [] with
    | nil => rw [hm] at h; cases h
    | cons pr tl =>
      rw [hm] at h
      have hcaps : pr.2 = caps := Option.some.inj h
      rw [← hcaps] at hx
      rcases rmatchAll_caps_chars r [] [] pr (hm ▸ List.mem_cons_self ..) x hx with
        h0 | h0
      · cases h0
      · exact h0 c hc
  | cons ch rest ih =>
    intro caps h x hx c hc
    unfold searchList at h
    cases hm : rmatchAll r (ch :: rest) [] with
    | nil =>
      rw [hm] at h
      exact List.mem_cons_of_mem ch (ih caps h x hx c hc)
    | cons pr tl =>
      rw [hm] at h
      have hcaps : pr.2 = caps := Option.some.inj h
      rw [← hcaps] at hx
      rcases rmatchAll_caps_chars r (ch :: rest) [] pr
          (hm ▸ List.mem_cons_self ..) x hx with h0 | h0
      · cases h0
      · exact h0 c hc

theorem lookup_mem_nat : ∀ (l : List (Nat × List Char)) (n : Nat) (v : List Char),
    l.lookup n = some v → (n, v) ∈ l := by
  intro l
  induction l with
  | nil => intro n v h; cases h
  | cons p tl ih =>
    intro n v h
    obtain ⟨k, b⟩ := p
    unfold List.lookup at h
    cases hk : (n == k) with
    | true =>
      rw [hk] at h
      have hnk : n = k := eq_of_beq hk
      have hvb : b = v := Option.some.inj h
      rw [hnk, hvb]
      exact List.mem_cons_self ..
    | false =>
      rw [hk] at h
      exact List.mem_cons_of_mem _ (ih n v h)

theorem firstPat_chars : ∀ (pats : List (Rx × Nat)) (msgL : List Char)
    (v : List Char), firstPat pats msgL = some v → ∀ c ∈ v, c ∈ msgL := by
  intro pats
  induction pats with
  | nil => intro msgL v h; cases h
  | cons p rest ih =>
    intro msgL v h c hc
    obtain ⟨r, n⟩ := p
    unfold firstPat at h
    cases hs : searchList r msgL with
    | none =>
      rw [hs] at h
      exact ih msgL v h c hc
    | some caps =>
      rw [hs] at h
      have hv : (caps.lookup n).getD [] = v := Option.some.inj h
      cases hl : caps.lookup n with
      | none => rw [hl] at hv; rw [← hv] at hc; cases hc
      | some cap =>
        rw [hl] at hv
        simp only [Option.getD_some] at hv
        rw [← hv] at hc
        exact searchList_caps_chars r msgL caps hs (n, cap)
          (lookup_mem_nat caps n cap hl) c hc

/-- C9: whenever one of the regex patterns matches, the per-parameter
resolution returns the stripped capture, and that value is drawn from the
lowercased copy of the instruction — every character of a regex-resolved
argument is non-uppercase, whatever casing the user wrote. -/
theorem regex_resolved_args_lowercase (msg : List Char) (param : String)
    (g : String → Option (List Char)) (v : List Char)
    (h : firstPat (patList (pyStrip (pyLower param.data))) (pyLower msg) = some v) :
    resolveParam msg g param = some (pyStrip v) ∧
    ∀ c ∈ pyStrip v, c.isUpper = false := by
  constructor
  · unfold resolveParam
    simp only [h]
  · intro c hc
    have hv : c ∈ v := pyStrip_subset v c hc
    have hmsgL : c ∈ pyLower msg :=
      firstPat_chars (patList (pyStrip (pyLower param.data))) (pyLower msg) v h c hv
    exact pyLower_not_upper msg c hmsgL

/-- Witness for C9: the quoted-capitalized value `ALICE` in `Name: ALICE`
resolves to the lowercase `alice`. -/
theorem regex_resolved_args_lowercase_witness :
    resolveParam (strL "Name: ALICE") (fun _ => none) "name" =
      some (strL "alice") ∧
    ∀ c ∈ pyStrip (strL "alice"), c.isUpper = false :=
  regex_resolved_args_lowercase (strL "Name: ALICE") "name" (fun _ => none)
    (strL "alice") (by decide)
